/-
Verification of the JSON-shape-to-visualization pipeline of the
Microburbs Suburb Explorer (`src/app.js`).

The JavaScript source is shallowly embedded:
  * JSON values (the result of `JSON.parse`) are the inductive type `Json`;
    JavaScript numbers are modelled as rationals (`ℚ`) — parsed JSON never
    contains NaN/Infinity, and the claims under study never depend on
    binary floating-point rounding.  Object key order models JavaScript
    insertion order (the special reordering of integer-like keys performed
    by JavaScript engines is not modelled); objects produced by
    `JSON.parse` have unique keys, so the embedding's assoc-list objects
    are read with a first-match lookup.
  * The flattened record built by `flattenObject` is an insertion-ordered
    association list (`Record`); JavaScript's `out[k] = v` updates an
    existing key in place (keeping its position) or appends, which is
    `recSet` below.
  * `flattenObject` is the mutual structural transcription of
    src/app.js:327-354 (the `slice(0, 8).forEach` loop becomes the
    budget-counting loop `flattenArr`).  `flattenFuel` is the same
    function with every JavaScript-level call spending one unit of fuel;
    theorem `flatten_terminates` (claim C3) shows any fuel ≥ `sizeJ`
    yields the defined result, i.e. the JavaScript recursion terminates.
-/
import Mathlib

set_option linter.unusedVariables false

namespace SuburbExplorer

/-! ## JSON values -/

/-- A parsed JSON value (`null`, booleans, numbers, strings, arrays,
objects).  Numbers are modelled as rationals, see the file header. -/
inductive Json where
  | null : Json
  | bool (b : Bool) : Json
  | num (q : ℚ) : Json
  | str (s : String) : Json
  | arr (xs : List Json) : Json
  | obj (kvs : List (String × Json)) : Json

/-- `typeof v === "object" && v !== null`: arrays and objects. -/
def Json.isContainer : Json → Bool
  | .arr _ => true
  | .obj _ => true
  | _ => false

mutual

/-- Structural size of a JSON value (used as sufficient fuel in the
termination theorem for the flattener, claim C3). -/
def sizeJ : Json → Nat
  | .null => 1
  | .bool _ => 1
  | .num _ => 1
  | .str _ => 1
  | .arr xs => 1 + sizeJL xs
  | .obj kvs => 1 + sizeJF kvs

/-- Sum of sizes of a list of JSON values. -/
def sizeJL : List Json → Nat
  | [] => 0
  | x :: r => sizeJ x + sizeJL r

/-- Sum of sizes of the values of an object's field list. -/
def sizeJF : List (String × Json) → Nat
  | [] => 0
  | (_, x) :: r => sizeJ x + sizeJF r

end

mutual

/-- Boolean equality of JSON values. -/
def beqJ : Json → Json → Bool
  | .null, .null => true
  | .bool a, .bool b => a == b
  | .num a, .num b => a == b
  | .str a, .str b => a == b
  | .arr xs, .arr ys => beqJL xs ys
  | .obj a, .obj b => beqJF a b
  | _, _ => false

/-- Boolean equality of lists of JSON values. -/
def beqJL : List Json → List Json → Bool
  | [], [] => true
  | x :: xs, y :: ys => beqJ x y && beqJL xs ys
  | _, _ => false

/-- Boolean equality of object field lists. -/
def beqJF : List (String × Json) → List (String × Json) → Bool
  | [], [] => true
  | (k, x) :: xs, (l, y) :: ys => k == l && beqJ x y && beqJF xs ys
  | _, _ => false

end

mutual

theorem beqJ_iff : ∀ a b, beqJ a b = true ↔ a = b
  | a, b => by
    cases a <;> cases b <;> simp [beqJ] <;>
      first
        | rfl
        | (constructor <;>
            first
              | exact fun h => (beqJL_iff _ _).mp h
              | exact fun h => (beqJL_iff _ _).mpr h
              | exact fun h => (beqJF_iff _ _).mp h
              | exact fun h => (beqJF_iff _ _).mpr h)

theorem beqJL_iff : ∀ a b, beqJL a b = true ↔ a = b
  | [], [] => by simp [beqJL]
  | [], _ :: _ => by simp [beqJL]
  | _ :: _, [] => by simp [beqJL]
  | x :: xs, y :: ys => by simp [beqJL, beqJ_iff x y, beqJL_iff xs ys]

theorem beqJF_iff : ∀ a b, beqJF a b = true ↔ a = b
  | [], [] => by simp [beqJF]
  | [], _ :: _ => by simp [beqJF]
  | _ :: _, [] => by simp [beqJF]
  | (k, x) :: xs, (l, y) :: ys => by
    simp [beqJF, beqJ_iff x y, beqJF_iff xs ys, and_assoc]

end

instance : DecidableEq Json := fun a b => decidable_of_iff _ (beqJ_iff a b)

/-! ## Small string helpers modelling JavaScript built-ins -/

/-- The decimal digit character for `d < 10` (as produced when printing
array indices and numbers). -/
def digitChar (d : Nat) : Char := Char.ofNat (48 + d)

/-- Models `Number.prototype.toFixed(2)`: round to the nearest multiple of
1/100, ties towards the larger candidate (ECMA-262 "pick the larger n"),
then print with exactly two decimals.  The rounded numerator
`⌊q·100 + 1/2⌋` is computed on the reduced representation `q.num/q.den`
as `⌊(200·num + den) / (2·den)⌋` (floor division; same value, but in
integer arithmetic).  The sign of a negative zero result is not
modelled. -/
def toFixed2 (q : ℚ) : String :=
  let m : Int := (200 * q.num + q.den).fdiv (2 * q.den)
  let a : Nat := m.natAbs
  let frac : Nat := a % 100
  (if m < 0 then "-" else "") ++ toString (a / 100) ++ "." ++
    (if frac < 10 then "0" else "") ++ toString frac

/-- Division of a rational by `10^k` (the only divisions `formatNumber`
performs), computed on the representation so that concrete instances
evaluate; `divPow10_eq` shows it is ordinary division. -/
def divPow10 (q : ℚ) (k : Nat) : ℚ := mkRat q.num (q.den * 10 ^ k)

/-- Working on a reversed digit list: insert `','` after each block of
three digits. -/
def groupDigitsAux : Nat → List Char → List Char
  | _, [] => []
  | n, c :: rest =>
      if n == 3 then ',' :: c :: groupDigitsAux 1 rest
      else c :: groupDigitsAux (n + 1) rest

/-- Models `Number.prototype.toLocaleString()` on integers: comma
grouping in blocks of three from the right, no decimals (en-style
locale). -/
def jsLocaleInt (i : Int) : String :=
  (if i < 0 then "-" else "") ++
    String.mk (groupDigitsAux 0 (toString i.natAbs).data.reverse).reverse

/-- Models `toLocaleString` on a natural number. -/
def jsLocaleNat (n : Nat) : String := jsLocaleInt n

/-- Decimal digits of `r/d` for `0 ≤ r < d` (long division), stopping
when the remainder is zero (finite decimals print exactly) or after
`fuel` digits (JavaScript's shortest-roundtrip printing of binary
non-decimal fractions is approximated by a 20-digit cutoff, never reached
in this development). -/
def fracDigits : Nat → Nat → Nat → List Char
  | 0, _, _ => []
  | fuel + 1, r, d =>
      if r == 0 then []
      else digitChar (r * 10 / d) :: fracDigits fuel (r * 10 % d) d

/-- `String(n)` for a non-negative number `q = num/den`: integer part,
then the fractional digits if any. -/
def jsRatToStringPos (q : ℚ) : String :=
  let n : Nat := q.num.toNat
  let d : Nat := q.den
  if n % d == 0 then toString (n / d)
  else toString (n / d) ++ "." ++ String.mk (fracDigits 20 (n % d) d)

/-- Models `String(n)` on a (finite) JavaScript number. -/
def jsRatToString (q : ℚ) : String :=
  if q < 0 then "-" ++ jsRatToStringPos |q| else jsRatToStringPos q

/-- Number of `'.'` characters in a string — the `depth` helper of
`flattenObject` (`s.match(/\./g)?.length || 0`, src/app.js:353). -/
def dots (s : String) : Nat := s.data.countP (· == '.')

/-! ## `String(v)` on JSON values -/

mutual

/-- Models JavaScript `String(v)`: `null ↦ "null"`, booleans, numbers,
strings as themselves; arrays join their elements with `","` (`null`
elements print empty), plain objects print `"[object Object]"`.  Only
scalar cases are reachable from the pipeline. -/
def jsString : Json → String
  | .null => "null"
  | .bool b => if b then "true" else "false"
  | .num q => jsRatToString q
  | .str s => s
  | .arr xs => jsStringElems xs
  | .obj _ => "[object Object]"

/-- `Array.prototype.toString` = `join(",")`, with `null` elements
printing empty. -/
def jsStringElems : List Json → String
  | [] => ""
  | [.null] => ""
  | [x] => jsString x
  | .null :: rest => "," ++ jsStringElems rest
  | x :: rest => jsString x ++ "," ++ jsStringElems rest

end

/-- `summarize` (src/app.js:356-360): one-line summary of a value that is
too deep to expand. -/
def summarize (v : Json) : String :=
  match v with
  | .arr xs => "Array(" ++ toString xs.length ++ ")"
  | .obj kvs => "Object(" ++ toString kvs.length ++ " keys)"
  | v => jsString v

/-! ## Insertion-ordered records (the `out` object of `flattenObject`) -/

/-- The flattened record: an association list in insertion order. -/
abbrev Record := List (String × Json)

/-- JavaScript `out[k] = v` on a plain object: if `k` is already a key its
value is updated in place (the key keeps its original position), otherwise
the pair is appended. -/
def recSet (out : Record) (k : String) (v : Json) : Record :=
  if out.any (fun e => e.1 == k) then
    out.map (fun e => if e.1 == k then (k, v) else e)
  else out ++ [(k, v)]

/-- JavaScript `out[k]` (reading): the value at key `k`, if present. -/
def recGet (out : Record) (k : String) : Option Json :=
  (out.find? (fun e => e.1 == k)).map (·.2)

/-! ## The flattener (`flattenObject`, src/app.js:327-354) -/

/-- The array-element path `prefix[i]` (also correct at empty prefix,
where the JavaScript template gives the same string). -/
def elemKey (pre : String) (i : Nat) : String :=
  pre ++ "[" ++ toString i ++ "]"

/-- The object-field path `prefix ? prefix + "." + k : k`. -/
def fieldKey (pre : String) (k : String) : String :=
  if pre = "" then k else pre ++ "." ++ k

/-- The `__len` path of an array (`prefix ? prefix + ".__len" : "__len"`). -/
def lenKey (pre : String) : String :=
  if pre = "" then "__len" else pre ++ ".__len"

/-- The path of a leaf stored at the current position
(`prefix || "value"`). -/
def keyOr (pre : String) : String := if pre = "" then "value" else pre

mutual

/-- `flattenObject(obj, depthLimit, prefix, out)` (src/app.js:327-354):
 * `null`/`undefined` is skipped;
 * once `depth(prefix) >= depthLimit` the value is replaced by its
   `summarize` string under `prefix || "value"`;
 * an array stores `__len` and expands its first 8 elements under
   bracket-index paths (`flattenArr` with budget 8);
 * an object expands each field under dotted paths (`flattenFields`);
 * a bare scalar is stored under `prefix || "value"`. -/
def flattenObject (v : Json) (d : Nat := 4) (pre : String := "")
    (out : Record := []) : Record :=
  match v with
  | .null => out
  | v =>
      if dots pre ≥ d then
        recSet out (keyOr pre) (.str (summarize v))
      else
        match v with
        | .arr xs =>
            flattenArr xs 8 0 d pre (recSet out (lenKey pre) (.num xs.length))
        | .obj kvs => flattenFields kvs d pre out
        | v => recSet out (keyOr pre) v

/-- The `obj.slice(0, 8).forEach((v, i) => ...)` loop (src/app.js:335-339)
as a budget-counting loop: element `i` recurses if it is a container and
is stored directly otherwise; at most `budget` elements are processed. -/
def flattenArr (l : List Json) (budget : Nat) (i : Nat) (d : Nat)
    (pre : String) (out : Record) : Record :=
  match l, budget with
  | [], _ => out
  | _, 0 => out
  | x :: rest, b + 1 =>
      let p := elemKey pre i
      flattenArr rest b (i + 1) d pre
        (if x.isContainer then flattenObject x d p out else recSet out p x)

/-- The `for (const [k, v] of Object.entries(obj))` loop
(src/app.js:343-347). -/
def flattenFields (l : List (String × Json)) (d : Nat) (pre : String)
    (out : Record) : Record :=
  match l with
  | [] => out
  | (k, x) :: rest =>
      let p := fieldKey pre k
      flattenFields rest d pre
        (if x.isContainer then flattenObject x d p out else recSet out p x)

end

/-! ## Fuel transcription of the flattener (for the termination claim) -/

/-- The element loop of the fuel transcription: `g` is the flattener at
the current fuel, the processed list is `(xs.take 8).enum` exactly as in
`slice(0, 8).forEach((v, i) => ...)`. -/
def foldElems (g : Json → String → Record → Option Record) (pre : String) :
    List (Nat × Json) → Record → Option Record
  | [], out => some out
  | (i, x) :: rest, out =>
      let p := elemKey pre i
      (if x.isContainer then g x p out else some (recSet out p x)).bind
        (foldElems g pre rest)

/-- The field loop of the fuel transcription. -/
def foldFields (g : Json → String → Record → Option Record) (pre : String) :
    List (String × Json) → Record → Option Record
  | [], out => some out
  | (k, x) :: rest, out =>
      let p := fieldKey pre k
      (if x.isContainer then g x p out else some (recSet out p x)).bind
        (foldFields g pre rest)

/-- Fuel-indexed transcription of `flattenObject`: each JavaScript-level
recursive call spends one unit of fuel, `none` meaning the fuel ran out.
Claim C3 (`flatten_terminates`) shows fuel `sizeJ v` always suffices and
yields `flattenObject`. -/
def flattenFuel : Nat → Json → Nat → String → Record → Option Record
  | 0, _, _, _, _ => none
  | fuel + 1, v, d, pre, out =>
      match v with
      | .null => some out
      | v =>
        if dots pre ≥ d then
          some (recSet out (keyOr pre) (.str (summarize v)))
        else
          match v with
          | .arr xs =>
              foldElems (fun x p o => flattenFuel fuel x d p o) pre
                ((xs.take 8).enum)
                (recSet out (lenKey pre) (.num xs.length))
          | .obj kvs =>
              foldFields (fun x p o => flattenFuel fuel x d p o) pre kvs out
          | v => some (recSet out (keyOr pre) v)

/-! ## `formatNumber` (src/app.js:368-375) -/

/-- `formatNumber(n)`: magnitudes ≥ 1e9/1e6/1e3 are divided down and
rendered to two decimals with a `B`/`M`/`k` suffix; remaining integers
(`Number.isInteger`, i.e. denominator 1) use `toLocaleString`; everything
else renders to two decimals. -/
def formatNumber (n : ℚ) : String :=
  let a : ℚ := |n|
  if a ≥ 1000000000 then toFixed2 (divPow10 n 9) ++ "B"
  else if a ≥ 1000000 then toFixed2 (divPow10 n 6) ++ "M"
  else if a ≥ 1000 then toFixed2 (divPow10 n 3) ++ "k"
  else if n.den == 1 then jsLocaleInt n.num
  else toFixed2 n

/-! ## `JSON.stringify` (used by `formatVal` for container cells) -/

/-- A JSON string literal: quoted, with `"` and `\` escaped (other JSON
escapes are not needed by this development). -/
def quoteStr (s : String) : String :=
  "\"" ++ String.mk (s.data.flatMap fun c =>
    if c == '"' || c == '\\' then ['\\', c] else [c]) ++ "\""

mutual

/-- Models `JSON.stringify(v)` (no spacing). -/
def jsonStringify : Json → String
  | .null => "null"
  | .bool b => if b then "true" else "false"
  | .num q => jsRatToString q
  | .str s => quoteStr s
  | .arr xs => "[" ++ stringifyElems xs ++ "]"
  | .obj kvs => "\x7b" ++ stringifyFields kvs ++ "\x7d"

/-- Comma-separated array elements. -/
def stringifyElems : List Json → String
  | [] => ""
  | [x] => jsonStringify x
  | x :: rest => jsonStringify x ++ "," ++ stringifyElems rest

/-- Comma-separated `"key":value` fields. -/
def stringifyFields : List (String × Json) → String
  | [] => ""
  | [(k, v)] => quoteStr k ++ ":" ++ jsonStringify v
  | (k, v) :: rest =>
      quoteStr k ++ ":" ++ jsonStringify v ++ "," ++ stringifyFields rest

end

/-! ## The table renderer (`renderTable`, src/app.js:203-236, array arm) -/

/-- `formatVal` (src/app.js:362-367) applied to `row?.[c]` (`none` models
`undefined`): null/undefined render empty, numbers via `formatNumber`,
containers via `JSON.stringify`, everything else via `String(v)`. -/
def formatVal : Option Json → String
  | none => ""
  | some .null => ""
  | some (.num q) => formatNumber q
  | some (.arr xs) => jsonStringify (.arr xs)
  | some (.obj kvs) => jsonStringify (.obj kvs)
  | some (.str s) => s
  | some (.bool b) => if b then "true" else "false"

/-- `Object.keys(row || {})`: own enumerable keys.  Objects list their
keys (unique for parsed JSON); arrays and strings are index-keyed;
`null` and the other scalars contribute none (falsy values fall back to
`{}`; `Object.keys` of a number or boolean is empty anyway). -/
def jsKeys : Json → List String
  | .obj kvs => kvs.map (·.1)
  | .arr xs => (List.range xs.length).map (fun i => toString i)
  | .str s => (List.range s.length).map (fun i => toString i)
  | _ => []

/-- `row?.[c]`: property access on a row.  Array and string indexing only
fires on the canonical decimal form of an index (as in JavaScript). -/
def jsGet : Json → String → Option Json
  | .obj kvs, c => (kvs.find? (fun e => e.1 == c)).map (·.2)
  | .arr xs, c =>
      c.toNat?.bind fun i => if toString i == c then xs.get? i else none
  | .str s, c =>
      c.toNat?.bind fun i =>
        if toString i == c then (s.data.get? i).map fun ch => Json.str (String.mk [ch])
        else none
  | _, _ => none

/-- First-seen-order deduplication (the insertion order of a JavaScript
`Set`); `seen` accumulates the keys already emitted. -/
def dedupFirst (seen : List String) : List String → List String
  | [] => []
  | c :: rest =>
      if seen.contains c then dedupFirst seen rest
      else c :: dedupFirst (c :: seen) rest

/-- The table's column set: the union of the own keys of the first 40
rows, in first-seen order (src/app.js:206-211). -/
def tableCols (rows : List Json) : List String :=
  dedupFirst [] ((rows.take 40).flatMap jsKeys)

/-- The array arm of `renderTable` (src/app.js:205-236) as a data
structure: the column headers and every row's cell texts (all rows are
rendered against the sampled column set). -/
def renderTableArray (rows : List Json) : List String × List (List String) :=
  let cols := tableCols rows
  (cols, rows.map fun r => cols.map fun c => formatVal (jsGet r c))

/-! ## The summary builder (`computeSummary`, src/app.js:171-189) -/

/-- JavaScript truthiness of a JSON value. -/
def jsTruthy : Json → Bool
  | .null => false
  | .bool b => b
  | .num q => !(q == 0)
  | .str s => !(s == "")
  | .arr _ => true
  | .obj _ => true

/-- `typeof v` as a string (for JSON values; `typeof null` is
`"object"`). -/
def typeofStr : Json → String
  | .null => "object"
  | .bool _ => "boolean"
  | .num _ => "number"
  | .str _ => "string"
  | .arr _ => "object"
  | .obj _ => "object"

/-- The value of `a || b || c || ""` followed by `if (suburb)`: the first
present-and-truthy value in the list, if any (`recGet` misses and falsy
values fall through; an overall falsy result emits nothing). -/
def firstTruthy : List (Option Json) → Option Json
  | [] => none
  | some v :: rest => if jsTruthy v then some v else firstTruthy rest
  | none :: rest => firstTruthy rest

/-- `data[0] || {}` (src/app.js:175). -/
def headOrEmptyObj : List Json → Json
  | [] => .obj []
  | x :: _ => if jsTruthy x then x else .obj []

/-- The items pushed before the context lookup (src/app.js:173-184).
Item values keep their JavaScript type (`Json`): counts pushed as
numbers stay numbers, locale strings stay strings; the rendering layer
stringifies later. -/
def summaryBase (data : Json) : List (String × Json) :=
  match data with
  | .arr xs =>
      [("Items", .str (jsLocaleNat xs.length)),
       ("Fields (sample)",
        .num (flattenObject (headOrEmptyObj xs) 4 "" []).length),
       ("Type", .str "Array")]
  | .obj kvs =>
      [("Fields", .str (jsLocaleNat (flattenObject (.obj kvs) 4 "" []).length)),
       ("Type", .str "Object")]
  | v => [("Type", .str (typeofStr v))]

/-- The conditional `"Context"` item (src/app.js:185-187): flatten the
full value, take the first truthy of `suburb`/`name`/`area`, and emit its
string form truncated to 48 characters (`String(suburb).slice(0, 48)`). -/
def contextItem (data : Json) : List (String × Json) :=
  match firstTruthy [recGet (flattenObject data 4 "" []) "suburb",
      recGet (flattenObject data 4 "" []) "name",
      recGet (flattenObject data 4 "" []) "area"] with
  | some v => [("Context", .str (String.mk ((jsString v).data.take 48)))]
  | none => []

/-- `computeSummary(data)` (src/app.js:171-189): the base items followed
by the optional context item. -/
def computeSummary (data : Json) : List (String × Json) :=
  summaryBase data ++ contextItem data

/-! ## The numeric extractor (`findNumericPairs`, src/app.js:267-278) -/

/-- Is `c` one of `'0'..'9'`? -/
def isDigitChar (c : Char) : Bool := '0' ≤ c && c ≤ '9'

/-- Numeric value of a digit list (most significant first). -/
def digitsVal (cs : List Char) : Nat :=
  cs.foldl (fun a c => a * 10 + (c.toNat - 48)) 0

/-- Split a character list at the first character satisfying `p`:
returns the part before it and, when found, the part after it. -/
def breakAt (p : Char → Bool) : List Char → List Char × Option (List Char)
  | [] => ([], none)
  | c :: rest =>
      if p c then ([], some rest)
      else
        let (a, b) := breakAt p rest
        (c :: a, b)

/-- The mantissa/exponent combination `mant · 10^(e - fracLen)` built on
the representation (so concrete instances evaluate). -/
def ratOfParts (mant : Nat) (fracLen : Nat) (e : Int) : ℚ :=
  let e' : Int := e - fracLen
  if 0 ≤ e' then mkRat (mant * 10 ^ e'.toNat) 1
  else mkRat mant (10 ^ (-e').toNat)

/-- An optionally signed nonempty digit string (the exponent part). -/
def parseExp : List Char → Option Int
  | '-' :: ds =>
      if !ds.isEmpty && ds.all isDigitChar then some (-(digitsVal ds : Int))
      else none
  | '+' :: ds =>
      if !ds.isEmpty && ds.all isDigitChar then some (digitsVal ds) else none
  | ds => if !ds.isEmpty && ds.all isDigitChar then some (digitsVal ds) else none

/-- An unsigned decimal literal `digits[.digits][e[±]digits]` (at least
one mantissa digit). -/
def parseUnsigned (cs : List Char) : Option ℚ :=
  let (mant, expPart) := breakAt (fun c => c == 'e' || c == 'E') cs
  let expVal : Option Int :=
    match expPart with
    | none => some 0
    | some ec => parseExp ec
  let (ip, fpOpt) := breakAt (fun c => c == '.') mant
  let fp := fpOpt.getD []
  if ip.all isDigitChar && fp.all isDigitChar && (!ip.isEmpty || !fp.isEmpty) then
    expVal.map fun e => ratOfParts (digitsVal (ip ++ fp)) fp.length e
  else none

/-- The whitespace characters stripped by `Number(s)` (the common ones;
the exotic Unicode space classes are not modelled). -/
def isSpaceChar (c : Char) : Bool :=
  c == ' ' || c == '\t' || c == '\n' || c == '\r'

/-- Strip leading and trailing whitespace. -/
def trimChars (cs : List Char) : List Char :=
  ((cs.dropWhile isSpaceChar).reverse.dropWhile isSpaceChar).reverse

/-- Models `Number(s)` on strings: trimmed; empty means `0`; otherwise an
optionally signed decimal literal.  `none` stands for the non-finite
results (NaN, `"Infinity"`) which src/app.js:272 rejects anyway;
hexadecimal/octal/binary literal forms are not modelled. -/
def jsStringToNumber (s : String) : Option ℚ :=
  match trimChars s.data with
  | [] => some 0
  | '-' :: rest => (parseUnsigned rest).map (fun q => -q)
  | '+' :: rest => parseUnsigned rest
  | cs => parseUnsigned cs

/-- The numeric coercion of src/app.js:271: numbers pass through, strings
go through `Number(s)`, every other type is NaN (`none`). -/
def coerceNum : Json → Option ℚ
  | .num q => some q
  | .str s => jsStringToNumber s
  | _ => none

/-- The pairs surviving coercion and the zero filter, in flattened
traversal order (the loop of src/app.js:270-275). -/
def numericCandidates (data : Json) : List (String × ℚ) :=
  (flattenObject data 4 "" []).filterMap fun e =>
    (coerceNum e.2).bind fun q => if |q| == 0 then none else some (e.1, q)

/-- The sort order of src/app.js:276: descending absolute value. -/
def absGe (a b : String × ℚ) : Prop := |b.2| ≤ |a.2|

instance : DecidableRel absGe := fun a b =>
  inferInstanceAs (Decidable (|b.2| ≤ |a.2|))

instance : IsTotal (String × ℚ) absGe :=
  ⟨fun a b => (le_total |b.2| |a.2|).imp id id⟩

instance : IsTrans (String × ℚ) absGe :=
  ⟨fun _ _ _ h1 h2 => le_trans h2 h1⟩

/-- `findNumericPairs(data)` (src/app.js:267-278).  JavaScript's
`Array.prototype.sort` with the consistent comparator
`(a, b) => Math.abs(b.value) - Math.abs(a.value)` is required (ES2019) to
be a stable sort by that order, which uniquely determines the output;
`List.insertionSort absGe` is such a stable sort (stability is proved in
`insertionSort_filter_abs`). -/
def findNumericPairs (data : Json) : List (String × ℚ) :=
  (List.insertionSort absGe (numericCandidates data)).take 12

/-! ## Unfolding equations for the flattener -/

theorem flattenObject_null (d : Nat) (pre : String) (out : Record) :
    flattenObject .null d pre out = out := rfl

theorem flattenObject_bool (b : Bool) (d : Nat) (pre : String) (out : Record) :
    flattenObject (.bool b) d pre out =
      if dots pre ≥ d then recSet out (keyOr pre) (.str (summarize (.bool b)))
      else recSet out (keyOr pre) (.bool b) := rfl

theorem flattenObject_num (q : ℚ) (d : Nat) (pre : String) (out : Record) :
    flattenObject (.num q) d pre out =
      if dots pre ≥ d then recSet out (keyOr pre) (.str (summarize (.num q)))
      else recSet out (keyOr pre) (.num q) := rfl

theorem flattenObject_str (s : String) (d : Nat) (pre : String) (out : Record) :
    flattenObject (.str s) d pre out =
      if dots pre ≥ d then recSet out (keyOr pre) (.str (summarize (.str s)))
      else recSet out (keyOr pre) (.str s) := rfl

theorem flattenObject_arr (xs : List Json) (d : Nat) (pre : String)
    (out : Record) :
    flattenObject (.arr xs) d pre out =
      if dots pre ≥ d then recSet out (keyOr pre) (.str (summarize (.arr xs)))
      else flattenArr xs 8 0 d pre
        (recSet out (lenKey pre) (.num xs.length)) := rfl

theorem flattenObject_obj (kvs : List (String × Json)) (d : Nat)
    (pre : String) (out : Record) :
    flattenObject (.obj kvs) d pre out =
      if dots pre ≥ d then recSet out (keyOr pre) (.str (summarize (.obj kvs)))
      else flattenFields kvs d pre out := rfl

theorem flattenArr_nil (b i d : Nat) (pre : String) (out : Record) :
    flattenArr [] b i d pre out = out := by
  cases b <;> rfl

theorem flattenArr_zero (l : List Json) (i d : Nat) (pre : String)
    (out : Record) : flattenArr l 0 i d pre out = out := by
  cases l <;> rfl

theorem flattenArr_cons (x : Json) (r : List Json) (b i d : Nat)
    (pre : String) (out : Record) :
    flattenArr (x :: r) (b + 1) i d pre out =
      flattenArr r b (i + 1) d pre
        (if x.isContainer then flattenObject x d (elemKey pre i) out
         else recSet out (elemKey pre i) x) := rfl

theorem flattenFields_nil (d : Nat) (pre : String) (out : Record) :
    flattenFields [] d pre out = out := rfl

theorem flattenFields_cons (k : String) (x : Json)
    (r : List (String × Json)) (d : Nat) (pre : String) (out : Record) :
    flattenFields ((k, x) :: r) d pre out =
      flattenFields r d pre
        (if x.isContainer then flattenObject x d (fieldKey pre k) out
         else recSet out (fieldKey pre k) x) := rfl

/-! ## Record lemmas -/

theorem mem_recSet {out : Record} {k : String} {v : Json}
    {e : String × Json} (h : e ∈ recSet out k v) : e ∈ out ∨ e = (k, v) := by
  unfold recSet at h
  split at h
  · obtain ⟨e', he', hmap⟩ := List.mem_map.mp h
    by_cases hk : e'.1 == k
    · right; rw [if_pos hk] at hmap; exact hmap.symm
    · left; rw [if_neg hk] at hmap; exact hmap ▸ he'
  · rcases List.mem_append.mp h with h1 | h1
    · exact .inl h1
    · right; simpa using h1

/-- Insertion with a value satisfying `P` preserves an all-values
invariant. -/
theorem recSet_forall (P : Json → Prop) {out : Record} {k : String}
    {v : Json} (h : ∀ e ∈ out, P e.2) (hv : P v) :
    ∀ e ∈ recSet out k v, P e.2 := by
  intro e he
  rcases mem_recSet he with h1 | h1
  · exact h e h1
  · rw [h1]; exact hv

/-! ## Every stored value is a non-container leaf (claim C4) -/

mutual

theorem flattenLeaf : ∀ (v : Json) (d : Nat) (pre : String) (out : Record),
    (∀ e ∈ out, e.2.isContainer = false) →
    ∀ e ∈ flattenObject v d pre out, e.2.isContainer = false
  | .null, d, pre, out => fun h => by rw [flattenObject_null]; exact h
  | .bool b, d, pre, out => fun h => by
      rw [flattenObject_bool]; split
      · exact recSet_forall (fun u => u.isContainer = false) h rfl
      · exact recSet_forall (fun u => u.isContainer = false) h rfl
  | .num q, d, pre, out => fun h => by
      rw [flattenObject_num]; split
      · exact recSet_forall (fun u => u.isContainer = false) h rfl
      · exact recSet_forall (fun u => u.isContainer = false) h rfl
  | .str s, d, pre, out => fun h => by
      rw [flattenObject_str]; split
      · exact recSet_forall (fun u => u.isContainer = false) h rfl
      · exact recSet_forall (fun u => u.isContainer = false) h rfl
  | .arr xs, d, pre, out => fun h => by
      rw [flattenObject_arr]; split
      · exact recSet_forall (fun u => u.isContainer = false) h rfl
      · exact flattenArrLeaf xs 8 0 d pre _ (recSet_forall (fun u => u.isContainer = false) h rfl)
  | .obj kvs, d, pre, out => fun h => by
      rw [flattenObject_obj]; split
      · exact recSet_forall (fun u => u.isContainer = false) h rfl
      · exact flattenFieldsLeaf kvs d pre out h

theorem flattenArrLeaf : ∀ (l : List Json) (b i d : Nat) (pre : String)
    (out : Record),
    (∀ e ∈ out, e.2.isContainer = false) →
    ∀ e ∈ flattenArr l b i d pre out, e.2.isContainer = false
  | [], b, i, d, pre, out => fun h => by rw [flattenArr_nil]; exact h
  | x :: r, 0, i, d, pre, out => fun h => by rw [flattenArr_zero]; exact h
  | x :: r, b + 1, i, d, pre, out => fun h => by
      rw [flattenArr_cons]
      refine flattenArrLeaf r b (i + 1) d pre _ ?_
      by_cases hc : x.isContainer
      · rw [if_pos hc]; exact flattenLeaf x d (elemKey pre i) out h
      · rw [if_neg hc]
        exact recSet_forall (fun u => u.isContainer = false) h (by simpa using hc)

theorem flattenFieldsLeaf : ∀ (l : List (String × Json)) (d : Nat)
    (pre : String) (out : Record),
    (∀ e ∈ out, e.2.isContainer = false) →
    ∀ e ∈ flattenFields l d pre out, e.2.isContainer = false
  | [], d, pre, out => fun h => by rw [flattenFields_nil]; exact h
  | (k, x) :: r, d, pre, out => fun h => by
      rw [flattenFields_cons]
      refine flattenFieldsLeaf r d pre _ ?_
      by_cases hc : x.isContainer
      · rw [if_pos hc]; exact flattenLeaf x d (fieldKey pre k) out h
      · rw [if_neg hc]
        exact recSet_forall (fun u => u.isContainer = false) h (by simpa using hc)

end

/-- C4: for every JSON value and every depth limit, every entry value in
the record returned by `flattenObject` is a non-container leaf (number,
string, boolean, or null); no array or object ever appears as an entry
value. -/
theorem flatten_values_are_leaves (v : Json) (d : Nat)
    (e : String × Json) (he : e ∈ flattenObject v d "" []) :
    e.2.isContainer = false :=
  flattenLeaf v d "" [] (by simp) e he

theorem flatten_values_are_leaves_witness :
    (("a", Json.num 1) ∈
        flattenObject (.obj [("a", .num 1), ("b", .arr [.bool true])]) 4 "" []) ∧
      (Json.num 1).isContainer = false :=
  ⟨by decide, flatten_values_are_leaves
    (.obj [("a", .num 1), ("b", .arr [.bool true])]) 4 ("a", Json.num 1)
    (by decide)⟩

/-! ## Null handling (claim C2) -/

/-- C2, counterexample: a `null` value at an object-field or
array-element position is *not* skipped — it is stored directly, so it
does contribute an entry to the flattened record. -/
theorem null_field_emits_entry :
    flattenObject (.obj [("a", .null)]) 4 "" [] = [("a", .null)] ∧
      (("a", Json.null) ∈ flattenObject (.obj [("a", .null)]) 4 "" []) ∧
      flattenObject (.arr [.null]) 4 "" [] =
        [("__len", .num 1), ("[0]", .null)] := by
  refine ⟨by decide, by decide, by decide⟩

/-- C2, amended: a `null` (or `undefined`) value is skipped only when it
is the value the flattener itself is applied to — in particular at the
root; at an object-field or array-element position `null` is stored
directly as the entry's leaf value. -/
theorem null_skipped_only_at_root :
    (∀ (d : Nat) (pre : String) (out : Record),
        flattenObject .null d pre out = out) ∧
      (∀ (d : Nat) (k : String), 1 ≤ d →
        flattenObject (.obj [(k, .null)]) d "" [] = [(k, .null)]) ∧
      (∀ d : Nat, 1 ≤ d →
        flattenObject (.arr [.null]) d "" [] =
          [("__len", .num 1), ("[0]", .null)]) := by
  have h0 : dots "" = 0 := rfl
  refine ⟨fun d pre out => rfl, fun d k hd => ?_, fun d hd => ?_⟩
  · rw [flattenObject_obj, if_neg (by omega), flattenFields_cons,
      if_neg (by decide), flattenFields_nil]
    rfl
  · rw [flattenObject_arr, if_neg (by omega), flattenArr_cons,
      if_neg (by decide), flattenArr_nil]
    rfl

theorem null_skipped_only_at_root_witness :
    flattenObject .null 4 "x" [("k", Json.num 2)] = [("k", Json.num 2)] ∧
      (1 ≤ 4 ∧ flattenObject (.obj [("a", .null)]) 4 "" [] = [("a", .null)]) :=
  ⟨null_skipped_only_at_root.1 4 "x" [("k", Json.num 2)],
    by decide, null_skipped_only_at_root.2.1 4 "a" (by decide)⟩

/-! ## Depth limit zero (claim C5) -/

/-- C5, counterexample: at `depthLimit = 0` a `null` root yields the
*empty* record (not a single-entry one), and a scalar root is stored in
its string form (`summarize` = `String(v)`), not as the raw scalar. -/
theorem depth_zero_not_raw_scalar :
    flattenObject .null 0 "" [] = [] ∧
      flattenObject (.num 42) 0 "" [] = [("value", .str "42")] ∧
      flattenObject (.num 42) 0 "" [] ≠ [("value", .num 42)] := by
  refine ⟨rfl, by decide, by decide⟩

/-- C5, amended: for every *non-null* value `v`, `flattenObject v 0`
yields the single-entry record keyed `"value"` holding the `summarize`
string — `"Array(<n>)"`/`"Object(<n> keys)"` for containers and the
value's string form for scalars; a `null` root yields the empty
record. -/
theorem depth_zero_single_summary :
    (∀ v : Json, v ≠ .null →
        flattenObject v 0 "" [] = [("value", .str (summarize v))]) ∧
      flattenObject .null 0 "" [] = [] := by
  refine ⟨fun v hv => ?_, rfl⟩
  cases v with
  | null => exact absurd rfl hv
  | bool b => rfl
  | num q => rfl
  | str s => rfl
  | arr xs => rfl
  | obj kvs => rfl

theorem depth_zero_single_summary_witness :
    (Json.bool true ≠ Json.null ∧
        flattenObject (.bool true) 0 "" [] = [("value", .str "true")]) ∧
      (Json.arr [.num 1, .num 2] ≠ Json.null ∧
        flattenObject (.arr [.num 1, .num 2]) 0 "" [] =
          [("value", .str "Array(2)")]) :=
  ⟨⟨by decide, depth_zero_single_summary.1 (.bool true) (by decide)⟩,
    ⟨by decide, depth_zero_single_summary.1 (.arr [.num 1, .num 2]) (by decide)⟩⟩

/-! ## Termination of the JavaScript recursion (claim C3) -/

theorem flattenFuel_zero (v : Json) (d : Nat) (pre : String) (out : Record) :
    flattenFuel 0 v d pre out = none := rfl

theorem flattenFuel_null (fuel d : Nat) (pre : String) (out : Record) :
    flattenFuel (fuel + 1) .null d pre out = some out := rfl

theorem flattenFuel_bool (fuel : Nat) (b : Bool) (d : Nat) (pre : String)
    (out : Record) :
    flattenFuel (fuel + 1) (.bool b) d pre out =
      if dots pre ≥ d then
        some (recSet out (keyOr pre) (.str (summarize (.bool b))))
      else some (recSet out (keyOr pre) (.bool b)) := rfl

theorem flattenFuel_num (fuel : Nat) (q : ℚ) (d : Nat) (pre : String)
    (out : Record) :
    flattenFuel (fuel + 1) (.num q) d pre out =
      if dots pre ≥ d then
        some (recSet out (keyOr pre) (.str (summarize (.num q))))
      else some (recSet out (keyOr pre) (.num q)) := rfl

theorem flattenFuel_str (fuel : Nat) (s : String) (d : Nat) (pre : String)
    (out : Record) :
    flattenFuel (fuel + 1) (.str s) d pre out =
      if dots pre ≥ d then
        some (recSet out (keyOr pre) (.str (summarize (.str s))))
      else some (recSet out (keyOr pre) (.str s)) := rfl

theorem flattenFuel_arr (fuel : Nat) (xs : List Json) (d : Nat)
    (pre : String) (out : Record) :
    flattenFuel (fuel + 1) (.arr xs) d pre out =
      if dots pre ≥ d then
        some (recSet out (keyOr pre) (.str (summarize (.arr xs))))
      else
        foldElems (fun x p o => flattenFuel fuel x d p o) pre
          ((xs.take 8).enum) (recSet out (lenKey pre) (.num xs.length)) := rfl

theorem flattenFuel_obj (fuel : Nat) (kvs : List (String × Json)) (d : Nat)
    (pre : String) (out : Record) :
    flattenFuel (fuel + 1) (.obj kvs) d pre out =
      if dots pre ≥ d then
        some (recSet out (keyOr pre) (.str (summarize (.obj kvs))))
      else foldFields (fun x p o => flattenFuel fuel x d p o) pre kvs out :=
  rfl

theorem sizeJ_pos : ∀ v : Json, 1 ≤ sizeJ v := by
  intro v; cases v <;> simp [sizeJ]

theorem sizeJL_mem {l : List Json} {x : Json} (h : x ∈ l) :
    sizeJ x ≤ sizeJL l := by
  induction l with
  | nil => cases h
  | cons a r ih =>
      rcases List.mem_cons.mp h with rfl | h1
      · simp [sizeJL]
      · have := ih h1; simp [sizeJL]; omega

theorem sizeJF_mem {l : List (String × Json)} {e : String × Json}
    (h : e ∈ l) : sizeJ e.2 ≤ sizeJF l := by
  obtain ⟨k, x⟩ := e
  induction l with
  | nil => cases h
  | cons a r ih =>
      obtain ⟨k', x'⟩ := a
      rcases List.mem_cons.mp h with heq | h1
      · rw [show x = x' from congrArg Prod.snd heq]; simp [sizeJF]
      · have := ih h1
        simp only [sizeJF] at this ⊢
        change sizeJ x ≤ _ at this ⊢
        omega

/-- Bridge from the fuel transcription's element loop to the structural
flattener's element loop, given that the fuel suffices for each element
of the list. -/
theorem bridgeElems (fuel d : Nat) :
    ∀ (l : List Json) (b i : Nat) (pre : String) (out : Record),
      (∀ x ∈ l, ∀ (p : String) (o : Record),
        flattenFuel fuel x d p o = some (flattenObject x d p o)) →
      foldElems (fun x p o => flattenFuel fuel x d p o) pre
          ((l.take b).enumFrom i) out =
        some (flattenArr l b i d pre out) := by
  intro l
  induction l with
  | nil =>
      intro b i pre out hg
      simp [foldElems, flattenArr_nil]
  | cons x r ih =>
      intro b i pre out hg
      cases b with
      | zero => simp [foldElems, flattenArr_zero]
      | succ b =>
          rw [List.take_succ_cons, List.enumFrom_cons]
          rw [flattenArr_cons]
          by_cases hc : x.isContainer
          · rw [foldElems, if_pos hc, hg x (by simp) _ _, Option.some_bind]
            rw [if_pos hc]
            exact ih b (i + 1) pre _ fun y hy => hg y (by simp [hy])
          · rw [foldElems, if_neg hc, Option.some_bind, if_neg hc]
            exact ih b (i + 1) pre _ fun y hy => hg y (by simp [hy])

/-- Bridge for the field loop. -/
theorem bridgeFields (fuel d : Nat) :
    ∀ (l : List (String × Json)) (pre : String) (out : Record),
      (∀ e ∈ l, ∀ (p : String) (o : Record),
        flattenFuel fuel e.2 d p o = some (flattenObject e.2 d p o)) →
      foldFields (fun x p o => flattenFuel fuel x d p o) pre l out =
        some (flattenFields l d pre out) := by
  intro l
  induction l with
  | nil =>
      intro pre out hg
      simp [foldFields, flattenFields_nil]
  | cons e r ih =>
      intro pre out hg
      obtain ⟨k, x⟩ := e
      rw [flattenFields_cons]
      by_cases hc : x.isContainer
      · rw [foldFields, if_pos hc, hg (k, x) (by simp) _ _, Option.some_bind]
        rw [if_pos hc]
        exact ih pre _ fun y hy => hg y (by simp [hy])
      · rw [foldFields, if_neg hc, Option.some_bind, if_neg hc]
        exact ih pre _ fun y hy => hg y (by simp [hy])

/-- C3: the flattener is total.  The fuel transcription `flattenFuel`
spends one unit of fuel on every JavaScript-level recursive call; with
any fuel of at least the structural size of the input it never runs out
and returns the (deterministic, total) structural result `flattenObject`
— for every finite JSON value, every depth limit, every starting prefix
and accumulator.  In particular the recursion terminates even though
array nesting does not consume the depth budget. -/
theorem flatten_terminates : ∀ (fuel : Nat) (v : Json) (d : Nat)
    (pre : String) (out : Record), sizeJ v ≤ fuel →
    flattenFuel fuel v d pre out = some (flattenObject v d pre out) := by
  intro fuel
  induction fuel with
  | zero =>
      intro v d pre out hs
      exact absurd (le_trans (sizeJ_pos v) hs) (by omega)
  | succ fuel ih =>
      intro v d pre out hs
      cases v with
      | null => rw [flattenFuel_null, flattenObject_null]
      | bool b => rw [flattenFuel_bool, flattenObject_bool]; split <;> rfl
      | num q => rw [flattenFuel_num, flattenObject_num]; split <;> rfl
      | str s => rw [flattenFuel_str, flattenObject_str]; split <;> rfl
      | arr xs =>
          rw [flattenFuel_arr, flattenObject_arr]
          split
          · rfl
          · have hxs : ∀ x ∈ xs, sizeJ x ≤ fuel := by
              intro x hx
              have h1 := sizeJL_mem hx
              simp [sizeJ] at hs; omega
            have : (xs.take 8).enum = (xs.take 8).enumFrom 0 := rfl
            rw [this]
            exact bridgeElems fuel d xs 8 0 pre _
              fun x hx p o => ih x d p o (hxs x hx)
      | obj kvs =>
          rw [flattenFuel_obj, flattenObject_obj]
          split
          · rfl
          · have hkvs : ∀ e ∈ kvs, sizeJ (Prod.snd e) ≤ fuel := by
              intro e he
              have h1 := sizeJF_mem he
              simp [sizeJ] at hs; omega
            exact bridgeFields fuel d kvs pre out
              fun e he p o => ih e.2 d p o (hkvs e he)

theorem flatten_terminates_witness :
    sizeJ (Json.arr [.arr [.arr [.num 1, .null]]]) ≤ 9 ∧
      flattenFuel 9 (.arr [.arr [.arr [.num 1, .null]]]) 4 "" [] =
        some (flattenObject (.arr [.arr [.arr [.num 1, .null]]]) 4 "" []) :=
  ⟨by decide,
    flatten_terminates 9 (.arr [.arr [.arr [.num 1, .null]]]) 4 "" []
      (by decide)⟩

/-! ## The depth limit never fires without objects (claim C10) -/

mutual

/-- `true` iff the value is built solely from arrays and scalars (no
object anywhere). -/
def objFree : Json → Bool
  | .null => true
  | .bool _ => true
  | .num _ => true
  | .str _ => true
  | .arr xs => objFreeL xs
  | .obj _ => false

/-- `objFree` on every element. -/
def objFreeL : List Json → Bool
  | [] => true
  | x :: r => objFree x && objFreeL r

end

mutual

/-- `flattenObject` with the depth check of src/app.js:329-332 removed:
this definition contains no occurrence of `summarize`, so an execution
that agrees with it never emitted a summary placeholder.  (Claim C10
proves the agreement on object-free input for every positive depth
limit.) -/
def flattenND (v : Json) (pre : String) (out : Record) : Record :=
  match v with
  | .null => out
  | .arr xs =>
      flattenNDArr xs 8 0 pre (recSet out (lenKey pre) (.num xs.length))
  | .obj kvs => flattenNDFields kvs pre out
  | v => recSet out (keyOr pre) v

/-- Element loop of `flattenND`. -/
def flattenNDArr (l : List Json) (b i : Nat) (pre : String)
    (out : Record) : Record :=
  match l, b with
  | [], _ => out
  | _, 0 => out
  | x :: r, b + 1 =>
      flattenNDArr r b (i + 1) pre
        (if x.isContainer then flattenND x (elemKey pre i) out
         else recSet out (elemKey pre i) x)

/-- Field loop of `flattenND`. -/
def flattenNDFields (l : List (String × Json)) (pre : String)
    (out : Record) : Record :=
  match l with
  | [] => out
  | (k, x) :: r =>
      flattenNDFields r pre
        (if x.isContainer then flattenND x (fieldKey pre k) out
         else recSet out (fieldKey pre k) x)

end

theorem flattenNDArr_nil (b i : Nat) (pre : String) (out : Record) :
    flattenNDArr [] b i pre out = out := by cases b <;> rfl

theorem flattenNDArr_zero (l : List Json) (i : Nat) (pre : String)
    (out : Record) : flattenNDArr l 0 i pre out = out := by
  cases l <;> rfl

theorem flattenNDArr_cons (x : Json) (r : List Json) (b i : Nat)
    (pre : String) (out : Record) :
    flattenNDArr (x :: r) (b + 1) i pre out =
      flattenNDArr r b (i + 1) pre
        (if x.isContainer then flattenND x (elemKey pre i) out
         else recSet out (elemKey pre i) x) := rfl

/-- No decimal digit character is a dot. -/
theorem digitChar_ne_dot (n : Nat) (hn : n < 10) : Nat.digitChar n ≠ '.' := by
  interval_cases n <;> decide

theorem toDigitsCore_ne_dot :
    ∀ (fuel n : Nat) (acc : List Char), (∀ c ∈ acc, c ≠ '.') →
      ∀ c ∈ Nat.toDigitsCore 10 fuel n acc, c ≠ '.' := by
  intro fuel
  induction fuel with
  | zero => intro n acc hacc c hc; exact hacc c hc
  | succ fuel ih =>
      intro n acc hacc c hc
      rw [Nat.toDigitsCore] at hc
      have hcons : ∀ c' ∈ Nat.digitChar (n % 10) :: acc, c' ≠ '.' := by
        intro c' hc'
        rcases List.mem_cons.mp hc' with rfl | h1
        · exact digitChar_ne_dot _ (Nat.mod_lt _ (by omega))
        · exact hacc c' h1
      split at hc
      · exact hcons c hc
      · exact ih (n / 10) _ hcons c hc

/-- The decimal form of a natural number contains no dot. -/
theorem dots_toString_nat (n : Nat) : dots (toString n) = 0 := by
  have h : ∀ c ∈ Nat.toDigitsCore 10 (n + 1) n [], c ≠ '.' :=
    toDigitsCore_ne_dot (n + 1) n [] (by simp)
  show (Nat.toDigitsCore 10 (n + 1) n []).countP (· == '.') = 0
  rw [List.countP_eq_zero]
  intro c hc
  simpa using h c hc

theorem dots_append (a b : String) : dots (a ++ b) = dots a + dots b := by
  simp [dots, String.data_append, List.countP_append]

theorem dots_elemKey (pre : String) (i : Nat) :
    dots (elemKey pre i) = dots pre := by
  rw [elemKey, dots_append, dots_append, dots_append, dots_toString_nat]
  have h1 : dots "[" = 0 := rfl
  have h2 : dots "]" = 0 := rfl
  omega

mutual

theorem noSummaryA : ∀ (v : Json) (d : Nat) (pre : String) (out : Record),
    objFree v = true → 1 ≤ d → dots pre = 0 →
    flattenObject v d pre out = flattenND v pre out
  | .null, d, pre, out => fun h hd hp => rfl
  | .bool b, d, pre, out => fun h hd hp => by
      rw [flattenObject_bool, if_neg (by omega)]; rfl
  | .num q, d, pre, out => fun h hd hp => by
      rw [flattenObject_num, if_neg (by omega)]; rfl
  | .str s, d, pre, out => fun h hd hp => by
      rw [flattenObject_str, if_neg (by omega)]; rfl
  | .arr xs, d, pre, out => fun h hd hp => by
      rw [flattenObject_arr, if_neg (by omega)]
      exact noSummaryB xs 8 0 d pre _ (by simpa [objFree] using h) hd hp
  | .obj kvs, d, pre, out => fun h hd hp => by
      simp [objFree] at h

theorem noSummaryB : ∀ (l : List Json) (b i d : Nat) (pre : String)
    (out : Record), objFreeL l = true → 1 ≤ d → dots pre = 0 →
    flattenArr l b i d pre out = flattenNDArr l b i pre out
  | [], b, i, d, pre, out => fun h hd hp => by
      rw [flattenArr_nil, flattenNDArr_nil]
  | x :: r, 0, i, d, pre, out => fun h hd hp => by
      rw [flattenArr_zero, flattenNDArr_zero]
  | x :: r, b + 1, i, d, pre, out => fun h hd hp => by
      rw [flattenArr_cons, flattenNDArr_cons]
      have hx : objFree x = true := by
        simp [objFreeL] at h; exact h.1
      have hr : objFreeL r = true := by
        simp [objFreeL] at h; exact h.2
      rw [show (if x.isContainer then flattenObject x d (elemKey pre i) out
            else recSet out (elemKey pre i) x) =
          (if x.isContainer then flattenND x (elemKey pre i) out
            else recSet out (elemKey pre i) x) from by
        by_cases hc : x.isContainer
        · rw [if_pos hc, if_pos hc]
          exact noSummaryA x d (elemKey pre i) out hx hd
            (by rw [dots_elemKey]; exact hp)
        · rw [if_neg hc, if_neg hc]]
      exact noSummaryB r b (i + 1) d pre _ hr hd hp

end

/-- C10: on input built solely from arrays and scalars (no objects
anywhere) and any `depthLimit ≥ 1`, `flattenObject` coincides with the
variant `flattenND` from which the depth check has been removed — hence
it never emits a summary placeholder, however deeply the arrays nest
(array-index path segments use bracket notation, and `depth` counts only
`'.'` characters of the prefix); the depth limit is also irrelevant:
any two positive limits agree. -/
theorem array_nesting_ignores_depth_limit (v : Json) (d : Nat)
    (out : Record) (hv : objFree v = true) (hd : 1 ≤ d) :
    flattenObject v d "" out = flattenND v "" out ∧
      ∀ d' : Nat, 1 ≤ d' → flattenObject v d "" out =
        flattenObject v d' "" out := by
  refine ⟨noSummaryA v d "" out hv hd rfl, fun d' hd' => ?_⟩
  rw [noSummaryA v d "" out hv hd rfl, noSummaryA v d' "" out hv hd' rfl]

theorem array_nesting_ignores_depth_limit_witness :
    objFree (.arr [.arr [.arr [.arr [.num 7]]]]) = true ∧
      flattenObject (.arr [.arr [.arr [.arr [.num 7]]]]) 1 "" [] =
        flattenND (.arr [.arr [.arr [.arr [.num 7]]]]) "" [] :=
  ⟨by decide,
    (array_nesting_ignores_depth_limit (.arr [.arr [.arr [.arr [.num 7]]]])
      1 [] (by decide) (by decide)).1⟩

/-! ## String-key lemmas -/

theorem str_append_empty (s : String) : s ++ "" = s := by
  apply String.ext; simp [String.data_append]

theorem str_empty_append (s : String) : "" ++ s = s := by
  apply String.ext; simp [String.data_append]

theorem str_append_assoc (a b c : String) : a ++ b ++ c = a ++ (b ++ c) := by
  apply String.ext; simp [String.data_append]

theorem keyOr_extends (pre : String) : ∃ s, keyOr pre = pre ++ s := by
  by_cases h : pre = ""
  · subst h; exact ⟨"value", (str_empty_append _).symm⟩
  · exact ⟨"", by rw [keyOr, if_neg h, str_append_empty]⟩

theorem lenKey_extends (pre : String) : ∃ s, lenKey pre = pre ++ s := by
  by_cases h : pre = ""
  · subst h; exact ⟨"__len", (str_empty_append _).symm⟩
  · exact ⟨".__len", by rw [lenKey, if_neg h]⟩

theorem fieldKey_extends (pre k : String) : ∃ s, fieldKey pre k = pre ++ s := by
  by_cases h : pre = ""
  · subst h; exact ⟨k, by rw [fieldKey, if_pos rfl, str_empty_append]⟩
  · exact ⟨"." ++ k, by rw [fieldKey, if_neg h, str_append_assoc]⟩

theorem elemKey_extends (pre : String) (i : Nat) :
    elemKey pre i = pre ++ ("[" ++ toString i ++ "]") := by
  apply String.ext; simp [elemKey, String.data_append]

/-- A nonempty prefix makes `lenKey` disjoint from every element-derived
key: the first differs after `pre` with `'.'`, the second with `'['`. -/
theorem lenKey_ne_elemKey (pre : String) (hp : pre ≠ "") (j : Nat)
    (s : String) : lenKey pre ≠ elemKey pre j ++ s := by
  intro h
  rw [lenKey, if_neg hp, elemKey_extends, str_append_assoc] at h
  have hd := congrArg String.data h
  simp only [String.data_append] at hd
  have h2 := List.append_cancel_left hd
  simp at h2

/-! ## `recGet` stability under the flattener's writes -/

theorem recSet_empty (k : String) (v : Json) : recSet [] k v = [(k, v)] := rfl

theorem recGet_single (k : String) (v : Json) :
    recGet [(k, v)] k = some v := by
  simp [recGet, List.find?]

theorem recGet_recSet_ne {out : Record} {k' k : String} {v : Json}
    (h : k ≠ k') : recGet (recSet out k' v) k = recGet out k := by
  unfold recSet recGet
  split
  · have : ∀ l : Record,
        List.find? (fun e => e.1 == k)
            (l.map fun e => if e.1 == k' then (k', v) else e) =
          List.find? (fun e => e.1 == k) l := by
      intro l
      induction l with
      | nil => rfl
      | cons e r ih =>
          rw [List.map_cons]
          by_cases he : e.1 == k'
          · rw [if_pos he]
            have he' : e.1 = k' := by simpa using he
            have h1 : ((k', v).1 == k) = false := by
              rw [beq_eq_false_iff_ne]
              exact fun hh => h hh.symm
            have h2 : (e.1 == k) = false := by
              rw [beq_eq_false_iff_ne, he']
              exact fun hh => h hh.symm
            rw [List.find?_cons, List.find?_cons, h1, h2]
            exact ih
          · rw [if_neg he, List.find?_cons, List.find?_cons]
            cases hek : (e.1 == k)
            · exact ih
            · rfl
    rw [this]
  · rw [List.find?_append]
    have hnone : List.find? (fun e => e.1 == k) [(k', v)] = none := by
      have hb : ((k', v).1 == k) = false := by
        rw [beq_eq_false_iff_ne]
        exact fun hh => h hh.symm
      simp [List.find?, hb]
    rw [hnone]
    cases List.find? (fun e => e.1 == k) out <;> rfl

mutual

theorem flattenGet : ∀ (v : Json) (d : Nat) (pre : String) (out : Record)
    (k : String), (∀ s, k ≠ pre ++ s) →
    recGet (flattenObject v d pre out) k = recGet out k
  | .null, d, pre, out, k => fun hk => by rw [flattenObject_null]
  | .bool b, d, pre, out, k => fun hk => by
      obtain ⟨s0, hs0⟩ := keyOr_extends pre
      rw [flattenObject_bool]; split <;>
        exact recGet_recSet_ne (hs0 ▸ hk s0)
  | .num q, d, pre, out, k => fun hk => by
      obtain ⟨s0, hs0⟩ := keyOr_extends pre
      rw [flattenObject_num]; split <;>
        exact recGet_recSet_ne (hs0 ▸ hk s0)
  | .str s, d, pre, out, k => fun hk => by
      obtain ⟨s0, hs0⟩ := keyOr_extends pre
      rw [flattenObject_str]; split <;>
        exact recGet_recSet_ne (hs0 ▸ hk s0)
  | .arr xs, d, pre, out, k => fun hk => by
      obtain ⟨s0, hs0⟩ := keyOr_extends pre
      obtain ⟨s1, hs1⟩ := lenKey_extends pre
      rw [flattenObject_arr]; split
      · exact recGet_recSet_ne (hs0 ▸ hk s0)
      · rw [flattenArrGet xs 8 0 d pre _ k
          (fun j s => by
            rw [elemKey_extends, str_append_assoc]
            exact hk _)]
        exact recGet_recSet_ne (hs1 ▸ hk s1)
  | .obj kvs, d, pre, out, k => fun hk => by
      obtain ⟨s0, hs0⟩ := keyOr_extends pre
      rw [flattenObject_obj]; split
      · exact recGet_recSet_ne (hs0 ▸ hk s0)
      · exact flattenFieldsGet kvs d pre out k
          (fun k' s => by
            obtain ⟨s2, hs2⟩ := fieldKey_extends pre k'
            rw [hs2, str_append_assoc]
            exact hk _)

theorem flattenArrGet : ∀ (l : List Json) (b i d : Nat) (pre : String)
    (out : Record) (k : String), (∀ (j : Nat) (s : String),
      k ≠ elemKey pre j ++ s) →
    recGet (flattenArr l b i d pre out) k = recGet out k
  | [], b, i, d, pre, out, k => fun hk => by rw [flattenArr_nil]
  | x :: r, 0, i, d, pre, out, k => fun hk => by rw [flattenArr_zero]
  | x :: r, b + 1, i, d, pre, out, k => fun hk => by
      rw [flattenArr_cons,
        flattenArrGet r b (i + 1) d pre _ k hk]
      by_cases hc : x.isContainer
      · rw [if_pos hc]
        exact flattenGet x d (elemKey pre i) out k
          (fun s => hk i s)
      · rw [if_neg hc]
        exact recGet_recSet_ne
          (by rw [show elemKey pre i = elemKey pre i ++ "" from
              (str_append_empty _).symm]
              exact hk i "")

theorem flattenFieldsGet : ∀ (l : List (String × Json)) (d : Nat)
    (pre : String) (out : Record) (k : String),
    (∀ (k' s : String), k ≠ fieldKey pre k' ++ s) →
    recGet (flattenFields l d pre out) k = recGet out k
  | [], d, pre, out, k => fun hk => by rw [flattenFields_nil]
  | (k0, x) :: r, d, pre, out, k => fun hk => by
      rw [flattenFields_cons, flattenFieldsGet r d pre _ k hk]
      by_cases hc : x.isContainer
      · rw [if_pos hc]
        exact flattenGet x d (fieldKey pre k0) out k (fun s => hk k0 s)
      · rw [if_neg hc]
        exact recGet_recSet_ne
          (by rw [show fieldKey pre k0 = fieldKey pre k0 ++ "" from
              (str_append_empty _).symm]
              exact hk k0 "")

end

/-! ## Origin of the flattener's keys (claim C6) -/

mutual

theorem flattenKeys : ∀ (v : Json) (d : Nat) (pre : String) (out : Record),
    ∀ e ∈ flattenObject v d pre out, e ∈ out ∨ ∃ s, e.1 = pre ++ s
  | .null, d, pre, out => fun e he => by
      rw [flattenObject_null] at he; exact .inl he
  | .bool b, d, pre, out => fun e he => by
      obtain ⟨s0, hs0⟩ := keyOr_extends pre
      rw [flattenObject_bool] at he
      split at he <;>
        exact (mem_recSet he).imp id fun h1 => ⟨s0, by rw [h1, ← hs0]⟩
  | .num q, d, pre, out => fun e he => by
      obtain ⟨s0, hs0⟩ := keyOr_extends pre
      rw [flattenObject_num] at he
      split at he <;>
        exact (mem_recSet he).imp id fun h1 => ⟨s0, by rw [h1, ← hs0]⟩
  | .str s, d, pre, out => fun e he => by
      obtain ⟨s0, hs0⟩ := keyOr_extends pre
      rw [flattenObject_str] at he
      split at he <;>
        exact (mem_recSet he).imp id fun h1 => ⟨s0, by rw [h1, ← hs0]⟩
  | .arr xs, d, pre, out => fun e he => by
      obtain ⟨s0, hs0⟩ := keyOr_extends pre
      obtain ⟨s1, hs1⟩ := lenKey_extends pre
      rw [flattenObject_arr] at he
      split at he
      · exact (mem_recSet he).imp id fun h1 => ⟨s0, by rw [h1, ← hs0]⟩
      · rcases flattenArrKeys xs 8 0 d pre _ e he with h1 | ⟨j, s, _, _, hkey⟩
        · exact (mem_recSet h1).imp id fun h2 => ⟨s1, by rw [h2, ← hs1]⟩
        · right
          refine ⟨"[" ++ toString j ++ "]" ++ s, ?_⟩
          rw [hkey, elemKey_extends, str_append_assoc, str_append_assoc]
  | .obj kvs, d, pre, out => fun e he => by
      obtain ⟨s0, hs0⟩ := keyOr_extends pre
      rw [flattenObject_obj] at he
      split at he
      · exact (mem_recSet he).imp id fun h1 => ⟨s0, by rw [h1, ← hs0]⟩
      · exact flattenFieldsKeys kvs d pre out e he

theorem flattenArrKeys : ∀ (l : List Json) (b i d : Nat) (pre : String)
    (out : Record), ∀ e ∈ flattenArr l b i d pre out,
    e ∈ out ∨ ∃ j s, i ≤ j ∧ j < i + min b l.length ∧
      e.1 = elemKey pre j ++ s
  | [], b, i, d, pre, out => fun e he => by
      rw [flattenArr_nil] at he; exact .inl he
  | x :: r, 0, i, d, pre, out => fun e he => by
      rw [flattenArr_zero] at he; exact .inl he
  | x :: r, b + 1, i, d, pre, out => fun e he => by
      rw [flattenArr_cons] at he
      have hmin : min (b + 1) (x :: r).length = min b r.length + 1 := by
        simp [Nat.succ_min_succ]
      rcases flattenArrKeys r b (i + 1) d pre _ e he with h1 | ⟨j, s, hj1, hj2, hkey⟩
      · by_cases hc : x.isContainer
        · rw [if_pos hc] at h1
          rcases flattenKeys x d (elemKey pre i) out e h1 with h2 | ⟨s, hs⟩
          · exact .inl h2
          · right
            exact ⟨i, s, le_refl i, by omega, hs⟩
        · rw [if_neg hc] at h1
          rcases mem_recSet h1 with h2 | h2
          · exact .inl h2
          · right
            exact ⟨i, "", le_refl i, by omega,
              by rw [h2, str_append_empty]⟩
      · right
        refine ⟨j, s, by omega, by omega, hkey⟩

theorem flattenFieldsKeys : ∀ (l : List (String × Json)) (d : Nat)
    (pre : String) (out : Record), ∀ e ∈ flattenFields l d pre out,
    e ∈ out ∨ ∃ s, e.1 = pre ++ s
  | [], d, pre, out => fun e he => by
      rw [flattenFields_nil] at he; exact .inl he
  | (k0, x) :: r, d, pre, out => fun e he => by
      rw [flattenFields_cons] at he
      obtain ⟨s2, hs2⟩ := fieldKey_extends pre k0
      rcases flattenFieldsKeys r d pre _ e he with h1 | h1
      · by_cases hc : x.isContainer
        · rw [if_pos hc] at h1
          rcases flattenKeys x d (fieldKey pre k0) out e h1 with h2 | ⟨s, hs⟩
          · exact .inl h2
          · right
            exact ⟨s2 ++ s, by rw [hs, hs2, str_append_assoc]⟩
        · rw [if_neg hc] at h1
          rcases mem_recSet h1 with h2 | h2
          · exact .inl h2
          · exact .inr ⟨s2, by rw [h2, hs2]⟩
      · exact .inr h1

end

/-- C6, counterexample: when the expanded elements are themselves
containers, a nested array can contribute far more than 8 entries — here
an array of 3 two-element arrays yields 9 element-derived entries. -/
theorem array_elements_exceed_eight_entries :
    flattenObject
        (.obj [("a", .arr [.arr [.num 1, .num 2], .arr [.num 3, .num 4],
          .arr [.num 5, .num 6]])]) 4 "" [] =
      [("a.__len", .num 3),
       ("a[0].__len", .num 2), ("a[0][0]", .num 1), ("a[0][1]", .num 2),
       ("a[1].__len", .num 2), ("a[1][0]", .num 3), ("a[1][1]", .num 4),
       ("a[2].__len", .num 2), ("a[2][0]", .num 5), ("a[2][1]", .num 6)] ∧
      8 < ((flattenObject
        (.obj [("a", .arr [.arr [.num 1, .num 2], .arr [.num 3, .num 4],
          .arr [.num 5, .num 6]])]) 4 "" []).filter
          (fun e => !(e.1 == "a.__len"))).length := by
  exact ⟨by decide, by decide⟩

/-- C6, amended: flattening an array below the depth limit under a
nonempty prefix stores a `__len` entry at the array's path equal to the
true length, and every other entry it produces derives from one of the
first `min 8 n` elements, its key extending the bracket-index path
`prefix[i]` with `i < 8` (elements past index 7 contribute no entries).
When the expanded elements are scalars this gives at most 8
element-derived entries, but container elements may contribute several
entries each. -/
theorem array_flatten_len_and_first_eight (xs : List Json) (d : Nat)
    (p : String) (hp : p ≠ "") (hd : dots p < d) :
    recGet (flattenObject (.arr xs) d p []) (p ++ ".__len") =
        some (.num xs.length) ∧
      ∀ e ∈ flattenObject (.arr xs) d p [], e.1 = p ++ ".__len" ∨
        ∃ i s, i < 8 ∧ i < xs.length ∧ e.1 = elemKey p i ++ s := by
  have hnd : ¬ (dots p ≥ d) := by omega
  have hlen : lenKey p = p ++ ".__len" := by rw [lenKey, if_neg hp]
  rw [flattenObject_arr, if_neg hnd]
  constructor
  · rw [flattenArrGet xs 8 0 d p _ _
      (fun j s => hlen ▸ lenKey_ne_elemKey p hp j s)]
    rw [recSet_empty, ← hlen, recGet_single]
  · intro e he
    rcases flattenArrKeys xs 8 0 d p _ e he with h1 | ⟨j, s, hj1, hj2, hkey⟩
    · rw [recSet_empty, List.mem_singleton] at h1
      left
      rw [h1, ← hlen]
    · right
      refine ⟨j, s, by omega, by omega, hkey⟩

theorem array_flatten_len_and_first_eight_witness :
    ("ar" ≠ "" ∧ dots "ar" < 4) ∧
      recGet (flattenObject (.arr [.num 1, .null, .str "x"]) 4 "ar" [])
          ("ar" ++ ".__len") = some (.num 3) :=
  ⟨⟨by decide, by decide⟩,
    (array_flatten_len_and_first_eight [.num 1, .null, .str "x"] 4 "ar"
      (by decide) (by decide)).1⟩

/-! ## The numeric extractor's contract (claim C1) -/

theorem mem_numericCandidates_ne_zero {data : Json} {p : String × ℚ}
    (hp : p ∈ numericCandidates data) : p.2 ≠ 0 := by
  unfold numericCandidates at hp
  obtain ⟨e, he, heq⟩ := List.mem_filterMap.mp hp
  cases hc : coerceNum e.2 with
  | none => rw [hc] at heq; simp at heq
  | some q =>
      rw [hc] at heq
      simp only [Option.some_bind] at heq
      split at heq
      · simp at heq
      · rename_i hq
        have : p = (e.1, q) := by simpa using heq.symm
        rw [this]
        intro h0
        have h0' : q = 0 := h0
        exact hq (by simp [h0'])

theorem filter_orderedInsert_of_pos {α : Type} (r : α → α → Prop)
    [DecidableRel r] (p : α → Bool) (a : α) (ha : p a = true)
    (hmono : ∀ b, ¬ r a b → p b = false) :
    ∀ l : List α, (List.orderedInsert r a l).filter p = a :: l.filter p
  | [] => by simp [List.orderedInsert, ha]
  | b :: l => by
      rw [List.orderedInsert]
      by_cases hr : r a b
      · rw [if_pos hr]
        simp [List.filter_cons, ha]
      · rw [if_neg hr, List.filter_cons, List.filter_cons, hmono b hr,
          filter_orderedInsert_of_pos r p a ha hmono l]
        simp

theorem filter_orderedInsert_of_neg {α : Type} (r : α → α → Prop)
    [DecidableRel r] (p : α → Bool) (a : α) (ha : p a = false) :
    ∀ l : List α, (List.orderedInsert r a l).filter p = l.filter p
  | [] => by simp [List.orderedInsert, ha]
  | b :: l => by
      rw [List.orderedInsert]
      by_cases hr : r a b
      · rw [if_pos hr]
        simp [List.filter_cons, ha]
      · rw [if_neg hr, List.filter_cons, List.filter_cons,
          filter_orderedInsert_of_neg r p a ha l]

/-- Stability of the embedded sort: the elements of any fixed absolute
value come out of the sort exactly as they went in. -/
theorem insertionSort_filter_abs (c : ℚ) :
    ∀ l : List (String × ℚ),
      (List.insertionSort absGe l).filter (fun x => decide (|x.2| = c)) =
        l.filter (fun x => decide (|x.2| = c))
  | [] => rfl
  | a :: l => by
      rw [List.insertionSort]
      by_cases ha : |a.2| = c
      · rw [filter_orderedInsert_of_pos absGe _ a (by simp [ha])
          (fun b hb => by
            simp only [decide_eq_false_iff_not]
            intro hbc
            exact hb (le_of_eq (by rw [ha, hbc])))]
        rw [insertionSort_filter_abs c l, List.filter_cons]
        simp [ha]
      · rw [filter_orderedInsert_of_neg absGe _ a (by simp [ha])]
        rw [insertionSort_filter_abs c l, List.filter_cons]
        simp [ha]

theorem filter_take_eq_take_filter {α : Type} (l : List α) (n : Nat)
    (p : α → Bool) : ∃ k, (l.take n).filter p = (l.filter p).take k := by
  refine ⟨((l.take n).filter p).length, ?_⟩
  have hsplit : l.filter p = (l.take n).filter p ++ (l.drop n).filter p := by
    rw [← List.filter_append, List.take_append_drop]
  rw [hsplit, List.take_left]

/-- C1: for every JSON value, the numeric extractor returns at most 12
pairs, none of them zero (its rationals are always finite), the sequence
is non-increasing in absolute value (`absGe`), and ties are stable: for
every absolute value `c`, the returned pairs with `|value| = c` are an
order-preserving prefix of the coerced, zero-filtered pairs with
`|value| = c` in original flattened-traversal order. -/
theorem extractor_top12_sorted_stable (data : Json) :
    (findNumericPairs data).length ≤ 12 ∧
      (∀ p ∈ findNumericPairs data, p.2 ≠ 0) ∧
      (findNumericPairs data).Pairwise absGe ∧
      ∀ c : ℚ, ∃ k,
        (findNumericPairs data).filter (fun x => decide (|x.2| = c)) =
          ((numericCandidates data).filter
            (fun x => decide (|x.2| = c))).take k := by
  refine ⟨?_, ?_, ?_, ?_⟩
  · rw [findNumericPairs]
    exact le_trans (Nat.le_of_eq (List.length_take _ _)) (Nat.min_le_left _ _)
  · intro p hp
    rw [findNumericPairs] at hp
    have h1 : p ∈ List.insertionSort absGe (numericCandidates data) :=
      List.take_subset _ _ hp
    have h2 : p ∈ numericCandidates data :=
      (List.perm_insertionSort absGe (numericCandidates data)).mem_iff.mp h1
    exact mem_numericCandidates_ne_zero h2
  · rw [findNumericPairs]
    exact (List.sorted_insertionSort absGe (numericCandidates data)).sublist
      (List.take_sublist _ _)
  · intro c
    rw [findNumericPairs]
    obtain ⟨k, hk⟩ := filter_take_eq_take_filter
      (List.insertionSort absGe (numericCandidates data)) 12
      (fun x => decide (|x.2| = c))
    exact ⟨k, by rw [hk, insertionSort_filter_abs]⟩

theorem extractor_top12_sorted_stable_witness :
    (("v", (-50 : ℚ)) ∈ findNumericPairs
        (.obj [("x", .num 5), ("y", .str "42.5"), ("z", .str "hello"),
          ("w", .num 0), ("v", .num (-50))]) ∧ (-50 : ℚ) ≠ 0) ∧
      (findNumericPairs
        (.obj [("x", .num 5), ("y", .str "42.5"), ("z", .str "hello"),
          ("w", .num 0), ("v", .num (-50))])).Pairwise absGe :=
  ⟨⟨by decide,
    (extractor_top12_sorted_stable
      (.obj [("x", .num 5), ("y", .str "42.5"), ("z", .str "hello"),
        ("w", .num 0), ("v", .num (-50))])).2.1 ("v", (-50 : ℚ)) (by decide)⟩,
    (extractor_top12_sorted_stable
      (.obj [("x", .num 5), ("y", .str "42.5"), ("z", .str "hello"),
        ("w", .num 0), ("v", .num (-50))])).2.2.1⟩

/-! ## Table sampling (claim C7) -/

theorem mem_dedupFirst : ∀ (l seen : List String) (x : String),
    x ∈ dedupFirst seen l ↔ x ∈ l ∧ x ∉ seen := by
  intro l
  induction l with
  | nil => intro seen x; simp [dedupFirst]
  | cons c rest ih =>
      intro seen x
      rw [dedupFirst]
      by_cases hc : seen.contains c
      · rw [if_pos hc]
        have hcmem : c ∈ seen := by simpa using hc
        rw [ih seen x]
        simp only [List.mem_cons]
        constructor
        · rintro ⟨h1, h2⟩; exact ⟨.inr h1, h2⟩
        · rintro ⟨h1 | h1, h2⟩
          · exact absurd (h1 ▸ hcmem) h2
          · exact ⟨h1, h2⟩
      · rw [if_neg hc]
        have hcmem : c ∉ seen := by simpa using hc
        simp only [List.mem_cons, ih (c :: seen) x, List.mem_cons]
        constructor
        · rintro (rfl | ⟨h1, h2⟩)
          · exact ⟨.inl rfl, hcmem⟩
          · exact ⟨.inr h1, fun hx => h2 (.inr hx)⟩
        · rintro ⟨h1 | h1, h2⟩
          · exact .inl h1
          · by_cases hxc : x = c
            · exact .inl hxc
            · exact .inr ⟨h1, fun hx => by
                rcases hx with hx | hx
                · exact hxc hx
                · exact h2 hx⟩

theorem nodup_dedupFirst : ∀ (l seen : List String),
    (dedupFirst seen l).Nodup := by
  intro l
  induction l with
  | nil => intro seen; simp [dedupFirst]
  | cons c rest ih =>
      intro seen
      rw [dedupFirst]
      by_cases hc : seen.contains c
      · rw [if_pos hc]; exact ih seen
      · rw [if_neg hc]
        refine List.nodup_cons.mpr ⟨?_, ih (c :: seen)⟩
        intro hmem
        exact ((mem_dedupFirst rest (c :: seen) c).mp hmem).2 (by simp)

/-- C7: for every array input, the rendered grid has one row per input
row (all rows, not only the sampled ones), each rendered against the
fixed column list; the column list is exactly the union of the own
top-level keys of the first 40 rows (first-seen order, no duplicates);
and a missing cell (`row?.[c]` undefined) renders as the empty string.
On `[{a:1,b:2},{a:3,c:4}]` the columns are `a, b, c` in that order and
row 2's `b` cell is the empty string. -/
theorem table_sampled_columns_all_rows :
    (∀ rows : List Json,
        (renderTableArray rows).2 =
            rows.map (fun r => (renderTableArray rows).1.map
              (fun c => formatVal (jsGet r c))) ∧
          (renderTableArray rows).2.length = rows.length ∧
          (∀ g ∈ (renderTableArray rows).2,
            g.length = (renderTableArray rows).1.length) ∧
          (∀ c, c ∈ (renderTableArray rows).1 ↔
            ∃ r ∈ rows.take 40, c ∈ jsKeys r) ∧
          (renderTableArray rows).1.Nodup ∧
          formatVal none = "") ∧
      renderTableArray
          [.obj [("a", .num 1), ("b", .num 2)],
           .obj [("a", .num 3), ("c", .num 4)]] =
        (["a", "b", "c"], [["1", "2", ""], ["3", "", "4"]]) := by
  refine ⟨fun rows => ⟨rfl, by simp [renderTableArray], ?_, ?_,
    nodup_dedupFirst _ _, rfl⟩, by decide⟩
  · intro g hg
    simp only [renderTableArray] at hg ⊢
    obtain ⟨r, hr, rfl⟩ := List.mem_map.mp hg
    simp
  · intro c
    rw [show (renderTableArray rows).1 = tableCols rows from rfl, tableCols,
      mem_dedupFirst]
    simp [List.mem_flatMap]

theorem table_sampled_columns_all_rows_witness :
    (["1", "2", ""] ∈ (renderTableArray
        [.obj [("a", .num 1), ("b", .num 2)],
         .obj [("a", .num 3), ("c", .num 4)]]).2) ∧
      ["1", "2", ""].length = (renderTableArray
        [.obj [("a", .num 1), ("b", .num 2)],
         .obj [("a", .num 3), ("c", .num 4)]]).1.length :=
  ⟨by decide,
    (table_sampled_columns_all_rows.1
      [.obj [("a", .num 1), ("b", .num 2)],
       .obj [("a", .num 3), ("c", .num 4)]]).2.2.1 ["1", "2", ""] (by decide)⟩

/-! ## The summary builder's context item (claim C8) -/

/-- C8: the summary builder flattens the full value, checks the keys
`suburb`, `name`, `area` in that order, and on the first present *and
truthy* value (the source's `||` chain: missing keys and falsy values
fall through — "non-empty" in the spec) appends a `"Context"` item
holding that value's string form truncated to 48 characters; absent
any such value no `"Context"` item is emitted; on
`{suburb: "Testville", population: 1000}` the Context value is
`"Testville"`, and `suburb` wins over `name` even when `name` appears
first in the object. -/
theorem summary_context_first_truthy :
    (∀ (data : Json) (v : Json),
        firstTruthy [recGet (flattenObject data 4 "" []) "suburb",
            recGet (flattenObject data 4 "" []) "name",
            recGet (flattenObject data 4 "" []) "area"] = some v →
        computeSummary data = summaryBase data ++
            [("Context", .str (String.mk ((jsString v).data.take 48)))] ∧
          ∀ e ∈ summaryBase data, e.1 ≠ "Context") ∧
      (∀ data : Json,
        firstTruthy [recGet (flattenObject data 4 "" []) "suburb",
            recGet (flattenObject data 4 "" []) "name",
            recGet (flattenObject data 4 "" []) "area"] = none →
        ∀ s : Json, ("Context", s) ∉ computeSummary data) ∧
      (("Context", Json.str "Testville") ∈ computeSummary
        (.obj [("suburb", .str "Testville"), ("population", .num 1000)])) ∧
      computeSummary (.obj [("name", .str "N"), ("suburb", .str "S")]) =
        [("Fields", .str "2"), ("Type", .str "Object"),
         ("Context", .str "S")] := by
  have pair_fst_ne : ∀ (a : String) (x : Json) (b : String), a ≠ b →
      ((a, x) : String × Json).1 ≠ b := fun a x b h => h
  have hlab : ∀ (data : Json), ∀ e ∈ summaryBase data, e.1 ≠ "Context" := by
    intro data e he
    cases data with
    | null =>
        simp [summaryBase] at he
        rw [he]; exact pair_fst_ne _ _ _ (by decide)
    | bool b =>
        simp [summaryBase] at he
        rw [he]; exact pair_fst_ne _ _ _ (by decide)
    | num q =>
        simp [summaryBase] at he
        rw [he]; exact pair_fst_ne _ _ _ (by decide)
    | str s =>
        simp [summaryBase] at he
        rw [he]; exact pair_fst_ne _ _ _ (by decide)
    | arr xs =>
        simp [summaryBase] at he
        rcases he with he | he | he <;>
          (rw [he]; exact pair_fst_ne _ _ _ (by decide))
    | obj kvs =>
        simp [summaryBase] at he
        rcases he with he | he <;>
          (rw [he]; exact pair_fst_ne _ _ _ (by decide))
  refine ⟨fun data v h => ⟨?_, hlab data⟩, fun data h s hmem => ?_,
    by decide, by decide⟩
  · rw [computeSummary, contextItem, h]
  · rw [computeSummary, contextItem, h, List.append_nil] at hmem
    exact hlab data ("Context", s) hmem rfl

theorem summary_context_first_truthy_witness :
    firstTruthy [recGet (flattenObject
          (.obj [("suburb", .str "Testville"), ("population", .num 1000)])
          4 "" []) "suburb",
        recGet (flattenObject
          (.obj [("suburb", .str "Testville"), ("population", .num 1000)])
          4 "" []) "name",
        recGet (flattenObject
          (.obj [("suburb", .str "Testville"), ("population", .num 1000)])
          4 "" []) "area"] = some (.str "Testville") ∧
      computeSummary
          (.obj [("suburb", .str "Testville"), ("population", .num 1000)]) =
        summaryBase
            (.obj [("suburb", .str "Testville"), ("population", .num 1000)]) ++
          [("Context", .str (String.mk
            ((jsString (.str "Testville")).data.take 48)))] :=
  ⟨by decide,
    (summary_context_first_truthy.1
      (.obj [("suburb", .str "Testville"), ("population", .num 1000)])
      (.str "Testville") (by decide)).1⟩

/-! ## `formatNumber` (claim C9) -/

theorem divPow10_eq (q : ℚ) (k : Nat) : divPow10 q k = q / 10 ^ k := by
  rw [divPow10, Rat.mkRat_eq_div]
  push_cast
  rw [div_mul_eq_div_div, Rat.num_div_den]

/-- C9: `formatNumber` maps 1500 to `"1.50k"`, 2500000 to `"2.50M"`, 42
to `"42"`, 3.14159 to `"3.14"`; generally, magnitudes ≥ 1e9 render as the
value divided by 1e9 to two decimals with suffix `"B"`, then `"M"` and
`"k"` for 1e6 and 1e3, remaining integers with locale grouping and no
decimals, and every other value to two decimal places. -/
theorem formatNumber_spec :
    formatNumber 1500 = "1.50k" ∧ formatNumber 2500000 = "2.50M" ∧
      formatNumber 42 = "42" ∧
      formatNumber (mkRat 314159 100000) = "3.14" ∧
      (∀ n : ℚ, 1000000000 ≤ |n| →
        formatNumber n = toFixed2 (n / 10 ^ 9) ++ "B") ∧
      (∀ n : ℚ, 1000000 ≤ |n| → |n| < 1000000000 →
        formatNumber n = toFixed2 (n / 10 ^ 6) ++ "M") ∧
      (∀ n : ℚ, 1000 ≤ |n| → |n| < 1000000 →
        formatNumber n = toFixed2 (n / 10 ^ 3) ++ "k") ∧
      (∀ n : ℚ, |n| < 1000 → n.den = 1 →
        formatNumber n = jsLocaleInt n.num) ∧
      (∀ n : ℚ, |n| < 1000 → n.den ≠ 1 →
        formatNumber n = toFixed2 n) := by
  refine ⟨by decide, by decide, by decide, by decide,
    fun n h1 => ?_, fun n h1 h2 => ?_, fun n h1 h2 => ?_,
    fun n h1 h2 => ?_, fun n h1 h2 => ?_⟩
  · rw [formatNumber, if_pos (by exact h1), divPow10_eq]
  · rw [formatNumber, if_neg (by exact not_le.mpr h2),
      if_pos (by exact h1), divPow10_eq]
  · rw [formatNumber, if_neg (by exact not_le.mpr (lt_trans h2 (by norm_num))),
      if_neg (by exact not_le.mpr h2), if_pos (by exact h1), divPow10_eq]
  · rw [formatNumber, if_neg (by exact not_le.mpr (lt_trans h1 (by norm_num))),
      if_neg (by exact not_le.mpr (lt_trans h1 (by norm_num))),
      if_neg (by exact not_le.mpr h1), if_pos (by simp [h2])]
  · rw [formatNumber, if_neg (by exact not_le.mpr (lt_trans h1 (by norm_num))),
      if_neg (by exact not_le.mpr (lt_trans h1 (by norm_num))),
      if_neg (by exact not_le.mpr h1), if_neg (by simp [h2])]

theorem formatNumber_spec_witness :
    ((1000000000 : ℚ) ≤ |(5000000000 : ℚ)| ∧
        formatNumber 5000000000 = toFixed2 ((5000000000 : ℚ) / 10 ^ 9) ++ "B") ∧
      (|(-1500 : ℚ)| < 1000000 ∧ (1000 : ℚ) ≤ |(-1500 : ℚ)| ∧
        formatNumber (-1500) = toFixed2 ((-1500 : ℚ) / 10 ^ 3) ++ "k") :=
  ⟨⟨by decide, formatNumber_spec.2.2.2.2.1 5000000000 (by decide)⟩,
    ⟨by decide, by decide,
      formatNumber_spec.2.2.2.2.2.2.1 (-1500) (by decide) (by decide)⟩⟩

end SuburbExplorer
